import Mathlib

/-!
Shallow embedding of `src/parser.py` (orsinium-labs/linkedin-stats).

A message block is modelled as a `List Char` (Python `str`).  Each
`@cached_property` of the Python `Message` dataclass becomes a pure Lean
function of the raw block text.  Python regular expressions are embedded
as explicit backtracking matchers that follow the Python `re` semantics
(greedy quantifiers with backtracking, leftmost match, non-overlapping
`finditer`).  Character-level Python operations (`str.lower`,
`str.capitalize` on one character) are modelled at the ASCII level via
`Char.toLower` / `Char.toUpper`, which agree with Python on ASCII input.
-/

namespace LinkedinStats

/-- Python whitespace characters stripped by `str.strip()` (ASCII part). -/
def isPySpace (c : Char) : Bool :=
  c == ' ' || c == '\t' || c == '\n' || c == '\r' || c == '\x0b' || c == '\x0c'

/-- `occursAt pat s` : `pat` is a prefix of `s` (used to implement
Python's substring test). -/
def occursAt : List Char → List Char → Bool
  | [], _ => true
  | _ :: _, [] => false
  | p :: ps, c :: cs => p == c && occursAt ps cs

/-- `occursIn pat s` : Python's `pat in s` substring test. -/
def occursIn (pat : List Char) : List Char → Bool
  | [] => occursAt pat []
  | s@(_ :: rest) => occursAt pat s || occursIn pat rest

/-- Python `str.strip()` (ASCII whitespace). -/
def pyStrip (s : List Char) : List Char :=
  ((s.dropWhile isPySpace).reverse.dropWhile isPySpace).reverse

/-- Python `str.removesuffix(suf)`. -/
def pyRemoveSuffix (s suf : List Char) : List Char :=
  if occursAt suf.reverse s.reverse then s.take (s.length - suf.length) else s

/-- One step of Python `str.splitlines()`: accumulate the current line
(reversed in `acc`) and split at `\r\n`, `\n` or `\r`.  A trailing line
terminator produces no extra empty line, matching Python. -/
def splitlinesGo : List Char → List Char → List (List Char)
  | [], acc => if acc.isEmpty then [] else [acc.reverse]
  | '\r' :: '\n' :: rest, acc => acc.reverse :: splitlinesGo rest []
  | '\n' :: rest, acc => acc.reverse :: splitlinesGo rest []
  | '\r' :: rest, acc => acc.reverse :: splitlinesGo rest []
  | c :: rest, acc => splitlinesGo rest (c :: acc)

/-- Python `str.splitlines()` (restricted to the `\n`/`\r`/`\r\n`
line boundaries; the exotic Unicode boundaries are not modelled). -/
def pySplitlines (s : List Char) : List (List Char) :=
  splitlinesGo s []

/-- Python `str.lower()` on one character (ASCII level). -/
def pyLower (c : Char) : Char := c.toLower

-- Literal tokens hard-coded in parser.py.

def gramTok : List Char := "Gram".data
def nikitaTok : List Char := "Nikita".data
def canaryTok : List Char := "OR 1 --".data
def sheTok : List Char := "she/".data
def heTok : List Char := "he/".data
def theyTok : List Char := "they/".data
def httpsTok : List Char := "https://".data
def wwwTok : List Char := "www.".data
def pythonTok : List Char := "python".data
def dotTok : List Char := "· ".data
def sentSuffixTok : List Char := " sent the following messages at".data

/-- `Message.has_name`: `'Gram' in raw` or else `'Nikita' in raw`. -/
def has_name (raw : List Char) : Bool :=
  if occursIn gramTok raw then true else occursIn nikitaTok raw

/-- `Message.read_cv`: `'Gram' in raw`. -/
def read_cv (raw : List Char) : Bool :=
  occursIn gramTok raw

/-- `Message.autogenerated`:
`False` if `'Gram' in raw`; `True` if `'Nikita' not in raw`;
otherwise `'OR 1 --' in raw`. -/
def autogenerated (raw : List Char) : Bool :=
  if occursIn gramTok raw then false
  else if !occursIn nikitaTok raw then true
  else occursIn canaryTok raw

/-- `Message.sender_pronouns`: checks `'she/'`, `'he/'`, `'they/'`
in the lower-cased block, in that order. -/
def sender_pronouns (raw : List Char) : List Char :=
  if occursIn sheTok (raw.map pyLower) then "she".data
  else if occursIn heTok (raw.map pyLower) then "he".data
  else if occursIn theyTok (raw.map pyLower) then "they".data
  else []

/-- `Message.has_url`: `'https://' in raw or 'www.' in raw`. -/
def has_url (raw : List Char) : Bool :=
  occursIn httpsTok raw || occursIn wwwTok raw

/-- `Message.python`: `'python' in raw.lower()`. -/
def python (raw : List Char) : Bool :=
  occursIn pythonTok (raw.map pyLower)

/-- Loop body of `Message.sender_title`: once a line containing `'· '`
has been seen (`found = true`), the next line is returned verbatim. -/
def senderTitleGo : Bool → List (List Char) → List Char
  | _, [] => []
  | true, line :: _ => line
  | false, line :: rest =>
    if occursIn dotTok line then senderTitleGo true rest
    else senderTitleGo false rest

/-- `Message.sender_title`. -/
def sender_title (raw : List Char) : List Char :=
  senderTitleGo false (pySplitlines raw)

-- The salary regex r'[€£]?(\d{2,3})(k|K|\,000)', embedded as an
-- explicit matcher with Python re backtracking semantics.

def isDigitChar (c : Char) : Bool := '0' ≤ c && c ≤ '9'

def isUpperAlpha (c : Char) : Bool := 'A' ≤ c && c ≤ 'Z'

def isAlphaChar (c : Char) : Bool :=
  isUpperAlpha c || ('a' ≤ c && c ≤ 'z')

/-- The alternation `(k|K|\,000)` tried at the head of `s`; returns the
rest of the input after the alternative that matches (tried in order). -/
def salarySfx : List Char → Option (List Char)
  | 'k' :: rest => some rest
  | 'K' :: rest => some rest
  | ',' :: '0' :: '0' :: '0' :: rest => some rest
  | _ => none

/-- `(\d{2,3})(k|K|\,000)` at the head of `s`: the digit group is
greedy (three digits tried before two) and backtracks into the
alternation.  Returns (captured digit group, rest after the match). -/
def salaryNum (s : List Char) : Option (List Char × List Char) :=
  match s with
  | a :: b :: c :: rest =>
    if isDigitChar a && isDigitChar b then
      if isDigitChar c then
        match salarySfx rest with
        | some rest2 => some ([a, b, c], rest2)
        | none =>
          match salarySfx (c :: rest) with
          | some rest2 => some ([a, b], rest2)
          | none => none
      else
        match salarySfx (c :: rest) with
        | some rest2 => some ([a, b], rest2)
        | none => none
    else none
  | _ => none

/-- The whole salary pattern tried at the current position: the
optional currency class `[€£]?` is greedy and backtracks. -/
def salaryMatchAt (s : List Char) : Option (List Char × List Char) :=
  match s with
  | [] => none
  | c :: rest =>
    if c == '€' || c == '£' then
      match salaryNum rest with
      | some r => some r
      | none => salaryNum s
    else salaryNum s

/-- `re.finditer` scan: try the pattern at each position from the left;
on a match emit the digit group and resume after the match
(non-overlapping), otherwise advance one character.  The fuel argument
is an upper bound on the number of steps; every step consumes at least
one character, so fuel equal to the input length is always enough. -/
def salaryScan : Nat → List Char → List (List Char)
  | 0, _ => []
  | _ + 1, [] => []
  | fuel + 1, s@(_ :: rest) =>
    match salaryMatchAt s with
    | some (g, rest2) => g :: salaryScan fuel rest2
    | none => salaryScan fuel rest

/-- The digit groups of all matches of the salary regex, in document
order (`[m.group(1) for m in rex.finditer(raw)]`). -/
def salaryMatches (raw : List Char) : List (List Char) :=
  salaryScan raw.length raw

/-- `Message.salary`: `('','')` on no match; `('', m0)` when all
collected groups are one distinct value; otherwise the first two
groups in document order.  (The fallthrough `(m, m)` for a singleton
list is unreachable: a singleton always takes the all-equal branch.) -/
def salary (raw : List Char) : List Char × List Char :=
  match salaryMatches raw with
  | [] => ([], [])
  | m :: rest =>
    if rest.all (· == m) then ([], m)
    else
      match rest with
      | m2 :: _ => (m, m2)
      | [] => (m, m)

-- The header regex r'(.+)  ?(\d{1,2}:\d{1,2} [AP]M)' used with
-- re.fullmatch on each line.

/-- `\d{1,2}` at the head of `s`, greedy: two digits are preferred over
one.  (No further backtracking is needed: the characters that follow
the group in the patterns below are never digits.) -/
def takeDigits12 : List Char → Option (List Char × List Char)
  | [] => none
  | [a] => if isDigitChar a then some ([a], []) else none
  | a :: b :: rest =>
    if isDigitChar a then
      if isDigitChar b then some ([a, b], rest)
      else some ([a], b :: rest)
    else none

/-- Does `s` match `\d{1,2}:\d{1,2} [AP]M` exactly (to the end)? -/
def fullTimeMatch (s : List Char) : Bool :=
  match takeDigits12 s with
  | none => false
  | some (_, rest) =>
    match rest with
    | ':' :: rest2 =>
      match takeDigits12 rest2 with
      | none => false
      | some (_, rest3) =>
        match rest3 with
        | [' ', ap, 'M'] => ap == 'A' || ap == 'P'
        | _ => false
    | _ => false

/-- The header pattern with the length of group 1 fixed to `k`:
`(.+)` has captured `line.take k` and the rest of the line must match
`  ?(...)$`, the separator preferring two spaces over one. -/
def headerMatchAt (line : List Char) (k : Nat) : Option (List Char × List Char) :=
  match line.drop k with
  | ' ' :: ' ' :: t =>
    if fullTimeMatch t then some (line.take k, t)
    else if fullTimeMatch (' ' :: t) then some (line.take k, ' ' :: t)
    else none
  | ' ' :: t =>
    if fullTimeMatch t then some (line.take k, t) else none
  | _ => none

/-- Greedy `(.+)`: candidate group-1 lengths are tried longest first,
exactly as the backtracking regex engine does. -/
def headerMatchGo (line : List Char) : Nat → Option (List Char × List Char)
  | 0 => none
  | k + 1 =>
    match headerMatchAt line (k + 1) with
    | some r => some r
    | none => headerMatchGo line k

/-- `re.fullmatch` of the header pattern on one line, returning
(group 1, group 2) of the match Python would produce. -/
def headerMatch (line : List Char) : Option (List Char × List Char) :=
  headerMatchGo line line.length

/-- `Message._name_time`: the (name, time) groups from the first line
matching the header pattern; `none` models the raised `LookupError`. -/
def nameTime (raw : List Char) : Option (List Char × List Char) :=
  (pySplitlines raw).findSome? headerMatch

/-- The body of `Message.sender_name` applied to group 1 of the header
match: truncate at the first `'('`, strip, remove the trailing
`' sent the following messages at'`; `none` models a failure of the
two assertions (`assert name` and `assert name[0] == name[0].capitalize()`;
single-character Python `capitalize` is ASCII `Char.toUpper` here). -/
def senderNameOf (nm : List Char) : Option (List Char) :=
  match pyRemoveSuffix (pyStrip (nm.takeWhile (fun c => !(c == '(')))) sentSuffixTok with
  | [] => none
  | c :: rest => if c == c.toUpper then some (c :: rest) else none

/-- The three ways `Message.as_dict` can raise: `LookupError` from
`_name_time`, an `AssertionError` from the `sender_name` contract, and
the failed date assertion (which carries `self.sender_name` as its
diagnostic message). -/
inductive ExtractErr where
  | noHeader : ExtractErr
  | badName : ExtractErr
  | noDate : List Char → ExtractErr
deriving DecidableEq

/-- `Message.sender_name` as a fallible computation. -/
def senderName (raw : List Char) : Except ExtractErr (List Char) :=
  match nameTime raw with
  | none => .error .noHeader
  | some (nm, _) =>
    match senderNameOf nm with
    | none => .error .badName
    | some n => .ok n

-- The date regex r'\n[A-Z]{1}[A-Za-z]{2} \d{1,2}(, \d{4})?' used with
-- re.search.  Only the existence of a match is consumed by the program
-- logic modelled here (the matched text goes to dateutil); existence is
-- equivalent to some position starting with newline, an uppercase
-- letter, two letters, a space and a digit, since the year group is
-- optional and may match empty.

/-- Does the date pattern match at the head of `s`? -/
def dateMatchHere (s : List Char) : Bool :=
  match s with
  | '\n' :: c1 :: c2 :: c3 :: ' ' :: d :: _ =>
    isUpperAlpha c1 && isAlphaChar c2 && isAlphaChar c3 && isDigitChar d
  | _ => false

/-- `re.search` existence for the date pattern. -/
def hasDateMatch : List Char → Bool
  | [] => dateMatchHere []
  | s@(_ :: rest) => dateMatchHere s || hasDateMatch rest

-- Time-of-day parsing and serialization.

def digitsToNat (ds : List Char) : Nat :=
  ds.foldl (fun n c => n * 10 + (c.toNat - '0'.toNat)) 0

/-- Modelled from the spec: `dateutil.parser.parse(time).time()` on the
matched `H:M AM/PM` token — standard 12-hour clock parsing (12 AM is
hour 0, 12 PM is hour 12, other PM hours add 12). -/
def parseTime12 (t : List Char) : Option (Nat × Nat) :=
  match takeDigits12 t with
  | some (hd, ':' :: rest) =>
    match takeDigits12 rest with
    | some (md, [' ', ap, 'M']) =>
      let h := digitsToNat hd
      let m := digitsToNat md
      if ap == 'A' then some (if h == 12 then 0 else h, m)
      else if ap == 'P' then some (if h == 12 then 12 else h + 12, m)
      else none
    | _ => none
  | _ => none

/-- Two-digit zero-padded decimal rendering, as used by `strftime`. -/
def pad2 (n : Nat) : List Char :=
  if n < 10 then '0' :: Nat.toDigits 10 n else Nat.toDigits 10 n

/-- The 12-hour clock hour rendered by the `strftime` code `%I`. -/
def hour12 (h : Nat) : Nat :=
  if h % 12 == 0 then 12 else h % 12

/-- `self.time.strftime('%H:%I')` — the serialization that parser.py
actually performs: the 24-hour hour, a colon, and the 12-HOUR HOUR
(`%I`), so the minutes are dropped entirely. -/
def timeFmt (h : Nat) : List Char :=
  pad2 h ++ ':' :: pad2 (hour12 h)

/-- Modelled from the spec: the serialization the claim describes,
`'%H'` followed by the day-of-month code (`'%d'`).  Python renders `%d`
of a bare time value as the placeholder day `01`. -/
def claimedTimeFmt (h : Nat) : List Char :=
  pad2 h ++ ':' :: "01".data

-- The full record assembly (Message.as_dict).  The fields backed by
-- external reference data or regexes no claim mentions (has_emoji via
-- the emoji package's EMOJI_DATA, has_email, company and the parsed
-- date value handed to dateutil) are not modelled; none of them can
-- raise, so the error behaviour of as_dict is captured exactly.

structure Record where
  sender_name : List Char
  sender_title : List Char
  sender_pronouns : List Char
  has_name : Bool
  read_cv : Bool
  autogenerated : Bool
  salary_low : List Char
  salary_high : List Char
  has_url : Bool
  python : Bool
  chars : Nat
  time : List Char
deriving DecidableEq

/-- The record built once the header matched, the name contract held
and the date pattern was found.  `time` is unreachable in its `none`
branch: the header's group 2 always parses as a 12-hour time. -/
def mkRecord (raw sname tm : List Char) : Record :=
  ⟨sname, sender_title raw, sender_pronouns raw,
   has_name raw, read_cv raw, autogenerated raw,
   (salary raw).1, (salary raw).2,
   has_url raw, python raw, raw.length,
   match parseTime12 tm with
   | some (h, _) => timeFmt h
   | none => []⟩

/-- `Message(raw).as_dict()`: evaluates `sender_name` first (so a name
contract violation raises before anything else), then the remaining
field heuristics (none of which can raise), then asserts the date
pattern, surfacing the sender name in the failure. -/
def extract (raw : List Char) : Except ExtractErr Record :=
  match nameTime raw with
  | none => .error .noHeader
  | some (nm, tm) =>
    match senderNameOf nm with
    | none => .error .badName
    | some sname =>
      if hasDateMatch raw then .ok (mkRecord raw sname tm)
      else .error (.noDate sname)

/-- The emitted `time` string of a successfully extracted block. -/
def emittedTime (raw : List Char) : Option (List Char) :=
  (extract raw).toOption.map Record.time

-- Basic lemmas connecting the executable substring test with the
-- mathematical infix relation.

theorem occursAt_iff (pat s : List Char) : occursAt pat s = true ↔ pat <+: s := by
  induction pat generalizing s with
  | nil => simp [occursAt]
  | cons p ps ih =>
    cases s with
    | nil => simp [occursAt]
    | cons c cs =>
      rw [List.cons_prefix_cons]
      simp [occursAt, ih]

theorem occursIn_iff (pat s : List Char) : occursIn pat s = true ↔ pat <:+: s := by
  induction s with
  | nil => simp [occursIn, occursAt_iff]
  | cons c cs ih =>
    rw [List.infix_cons_iff]
    cases pat with
    | nil => simp [occursIn, occursAt]
    | cons p ps => simp [occursIn, occursAt_iff, ih]

-- Helper lemmas about the salary matcher.

/-- The digit group captured by the salary pattern is never empty. -/
theorem salaryNum_ne_nil {s g r : List Char} (h : salaryNum s = some (g, r)) :
    g ≠ [] := by
  unfold salaryNum at h
  split at h
  · split at h
    · split at h
      · split at h
        · simp only [Option.some.injEq, Prod.mk.injEq] at h
          obtain ⟨hg, -⟩ := h
          subst hg; simp
        · split at h
          · simp only [Option.some.injEq, Prod.mk.injEq] at h
            obtain ⟨hg, -⟩ := h
            subst hg; simp
          · simp at h
      · split at h
        · simp only [Option.some.injEq, Prod.mk.injEq] at h
          obtain ⟨hg, -⟩ := h
          subst hg; simp
        · simp at h
    · simp at h
  · simp at h

/-- The digit group of a whole-pattern match is never empty. -/
theorem salaryMatchAt_ne_nil {s g r : List Char} (h : salaryMatchAt s = some (g, r)) :
    g ≠ [] := by
  unfold salaryMatchAt at h
  split at h
  · simp at h
  · split at h
    · split at h
      next r0 heq =>
        rw [Option.some.injEq] at h
        rw [h] at heq
        exact salaryNum_ne_nil heq
      next => exact salaryNum_ne_nil h
    · exact salaryNum_ne_nil h

/-- Every collected salary group is a non-empty digit string. -/
theorem salaryScan_ne_nil :
    ∀ (fuel : Nat) (s g : List Char), g ∈ salaryScan fuel s → g ≠ [] := by
  intro fuel
  induction fuel with
  | zero => intro s g hg; simp [salaryScan] at hg
  | succ n ih =>
    intro s g hg
    cases s with
    | nil => simp [salaryScan] at hg
    | cons c rest =>
      rw [salaryScan] at hg
      split at hg
      next g0 rest2 heq =>
        rcases List.mem_cons.mp hg with h1 | h2
        · exact h1 ▸ salaryMatchAt_ne_nil heq
        · exact ih rest2 g h2
      next => exact ih rest g hg

theorem salaryMatches_ne_nil {raw g : List Char} (h : g ∈ salaryMatches raw) :
    g ≠ [] :=
  salaryScan_ne_nil raw.length raw g h

-- Helper lemmas about the sender-name contract.

/-- A successful `senderNameOf` result is non-empty and its head is a
fixed point of `Char.toUpper`. -/
theorem senderNameOf_ok {nm n : List Char} (h : senderNameOf nm = some n) :
    ∃ c rest, n = c :: rest ∧ c.toUpper = c := by
  unfold senderNameOf at h
  cases hceq : pyRemoveSuffix (pyStrip (nm.takeWhile (fun c => !(c == '(')))) sentSuffixTok with
  | nil => rw [hceq] at h; simp at h
  | cons c rest =>
    rw [hceq] at h
    simp only [Option.ite_none_right_eq_some, Option.some.injEq] at h
    obtain ⟨hc, hn⟩ := h
    exact ⟨c, rest, hn.symm, (eq_of_beq hc).symm⟩

-- Helper lemmas about the sender-title scan.

/-- If no line contains the marker, the scan returns the empty string. -/
theorem senderTitleGo_none (ls : List (List Char))
    (h : ∀ l ∈ ls, occursIn dotTok l = false) :
    senderTitleGo false ls = [] := by
  induction ls with
  | nil => rfl
  | cons line rest ih =>
    have h1 : occursIn dotTok line = false := h line (List.mem_cons_self line rest)
    rw [senderTitleGo, h1]
    simp only [Bool.false_eq_true, if_false]
    exact ih fun l hl => h l (List.mem_cons_of_mem line hl)

/-- Once the first marker line is reached, the scan returns the next
line, or the empty string when the marker line is last. -/
theorem senderTitleGo_found (pre : List (List Char)) (ml : List Char)
    (post : List (List Char))
    (hpre : ∀ l ∈ pre, occursIn dotTok l = false)
    (hml : occursIn dotTok ml = true) :
    senderTitleGo false (pre ++ ml :: post) = post.headD [] := by
  induction pre with
  | nil =>
    rw [List.nil_append, senderTitleGo, hml]
    simp only [if_true]
    cases post with
    | nil => rfl
    | cons p ps => rfl
  | cons l pre ih =>
    have h1 : occursIn dotTok l = false := hpre l (List.mem_cons_self l pre)
    rw [List.cons_append, senderTitleGo, h1]
    simp only [Bool.false_eq_true, if_false]
    exact ih fun x hx => hpre x (List.mem_cons_of_mem l hx)

/-- `salary` on a block with no pattern match. -/
theorem salary_of_no_match {raw : List Char} (h : salaryMatches raw = []) :
    salary raw = ([], []) := by
  unfold salary
  rw [h]

-- Claim theorems.

/-- Claim C1, counterexample: the claim says a block in which the
nickname token `'Gram'` is absent is autogenerated; the block
`"Nikita"` has no `'Gram'` yet `autogenerated` is `false` (the code
checks `'Nikita'` and the canary once `'Gram'` is absent). -/
theorem claim1_counterexample :
    occursIn gramTok "Nikita".data = false ∧
    autogenerated "Nikita".data = false := by
  exact ⟨by decide, by decide⟩

/-- Claim C1, amended: `autogenerated` is `false` whenever the nickname
token `'Gram'` is present; when `'Gram'` is absent it is `true` if the
first-name token `'Nikita'` is also absent, and otherwise it is `true`
exactly when the canary literal `'OR 1 --'` is present. -/
theorem claim1_autogenerated (raw : List Char) :
    (occursIn gramTok raw = true → autogenerated raw = false) ∧
    (occursIn gramTok raw = false → occursIn nikitaTok raw = false →
      autogenerated raw = true) ∧
    (occursIn gramTok raw = false → occursIn nikitaTok raw = true →
      autogenerated raw = occursIn canaryTok raw) := by
  refine ⟨fun h => ?_, fun h1 h2 => ?_, fun h1 h2 => ?_⟩ <;>
    simp [autogenerated, *]

/-- Claim C1, witness: a concrete block containing `'Gram'`. -/
theorem claim1_witness : autogenerated "Dear Gram, hello".data = false :=
  (claim1_autogenerated _).1 (by decide)

/-- Claim C2: the salary extractor collects the digit groups of every
match in document order; no match yields `('','')`; a single distinct
collected value is reported as `('', value)`; otherwise the first two
collected values, in document order, are reported as `(low, high)`. -/
theorem claim2_salary (raw : List Char) :
    (salaryMatches raw = [] → salary raw = ([], [])) ∧
    (∀ m ms, salaryMatches raw = m :: ms → ms.all (· == m) = true →
      salary raw = ([], m)) ∧
    (∀ m1 m2 ms, salaryMatches raw = m1 :: m2 :: ms →
      (m2 :: ms).all (· == m1) = false → salary raw = (m1, m2)) := by
  refine ⟨fun h => salary_of_no_match h, fun m ms h hall => ?_, fun m1 m2 ms h hall => ?_⟩
  · simp [salary, h, hall]
  · simp [salary, h, hall]

/-- Claim C2, witness: the spec's round-trip example, two distinct
tokens in document order. -/
theorem claim2_witness : salary "we pay 80k then 120k".data = ("80".data, "120".data) :=
  (claim2_salary _).2.2 "80".data "120".data [] (by decide) (by decide)

/-- Claim C3, counterexample: the block `"1Bob  1:30 PM"` contains a
valid header line and its derived sender name is `"1Bob"`, whose first
character is not an uppercase letter (the code's assertion
`name[0] == name[0].capitalize()` accepts any character that is a fixed
point of capitalization, e.g. a digit). -/
theorem claim3_counterexample :
    (nameTime "1Bob  1:30 PM".data).isSome = true ∧
    senderName "1Bob  1:30 PM".data = .ok "1Bob".data ∧
    isUpperAlpha '1' = false :=
  ⟨by decide, rfl, by decide⟩

/-- Claim C3, amended: for a block containing a header line, the
sender-name computation either fails its contract assertions (a fatal
`AssertionError`) or returns a non-empty name whose first character is
a fixed point of upper-casing (an uppercase letter, a digit, or any
other non-lowercase character); a block with no header line fails
fatally with the header-lookup error. -/
theorem claim3_sender_name (raw : List Char) :
    ((nameTime raw).isSome = true →
      senderName raw = .error .badName ∨
      ∃ c rest, senderName raw = .ok (c :: rest) ∧ c.toUpper = c) ∧
    ((nameTime raw).isSome = false → senderName raw = .error .noHeader) := by
  constructor
  · intro hs
    cases hnt : nameTime raw with
    | none => rw [hnt] at hs; simp at hs
    | some p =>
      obtain ⟨nm, tm⟩ := p
      cases hsn : senderNameOf nm with
      | none =>
        left
        simp only [senderName, hnt, hsn]
      | some n =>
        right
        obtain ⟨c, rest, hn, hc⟩ := senderNameOf_ok hsn
        refine ⟨c, rest, ?_, hc⟩
        simp only [senderName, hnt, hsn, hn]
  · intro hs
    cases hnt : nameTime raw with
    | none => simp only [senderName, hnt]
    | some p => rw [hnt] at hs; simp at hs

/-- Claim C3, witness: a well-formed header produces a name, and the
name satisfies the amended contract. -/
theorem claim3_witness :
    senderName "Bob  1:30 PM".data = .error .badName ∨
    ∃ c rest, senderName "Bob  1:30 PM".data = .ok (c :: rest) ∧ c.toUpper = c :=
  (claim3_sender_name _).1 (by decide)

/-- Claim C4, counterexample: the block `"Alice  3:45 PM\nJan 5\n"`
serializes its time as `"15:03"` (`'%H:%I'`: 24-hour hour, then
12-HOUR HOUR), not `"15:01"` as the claimed hour-plus-day-of-month
format (`'%H:%d'`, which renders the placeholder day 01 for a bare
time) would produce. -/
theorem claim4_counterexample :
    emittedTime "Alice  3:45 PM\nJan 5\n".data = some "15:03".data ∧
    claimedTimeFmt 15 = "15:01".data ∧
    ("15:03".data : List Char) ≠ "15:01".data :=
  ⟨rfl, by decide, by decide⟩

/-- Claim C4, amended: the serialized `time` field is the 24-hour hour
followed by the 12-hour-clock hour code (`%I`) in place of the minutes
code, so the minutes of the parsed time-of-day do not appear in the
emitted string (which depends only on the hour). -/
theorem claim4_time_format (raw : List Char) (r : Record) (nm tm : List Char)
    (h mi : Nat) (hok : extract raw = .ok r) (hnt : nameTime raw = some (nm, tm))
    (hpt : parseTime12 tm = some (h, mi)) :
    r.time = pad2 h ++ ':' :: pad2 (hour12 h) := by
  simp only [extract, hnt] at hok
  cases hsn : senderNameOf nm with
  | none =>
    simp only [hsn] at hok
    exact Except.noConfusion hok
  | some sname =>
    simp only [hsn] at hok
    by_cases hd : hasDateMatch raw = true
    · rw [if_pos hd] at hok
      have hr := Except.ok.inj hok
      rw [← hr]
      show (mkRecord raw sname tm).time = _
      simp only [mkRecord, hpt]
      rfl
    · rw [if_neg hd] at hok
      exact Except.noConfusion hok

/-- Claim C4, witness: the concrete block extracted in the
counterexample, through the amended statement. -/
theorem claim4_witness :
    (mkRecord "Alice  3:45 PM\nJan 5\n".data "Alice".data "3:45 PM".data).time =
      pad2 15 ++ ':' :: pad2 (hour12 15) :=
  claim4_time_format "Alice  3:45 PM\nJan 5\n".data
    (mkRecord "Alice  3:45 PM\nJan 5\n".data "Alice".data "3:45 PM".data)
    "Alice ".data "3:45 PM".data 15 45 rfl (by decide) (by decide)

/-- Claim C5, counterexample: the block `"bob  1:30 PM\nJan 5"` has
both a header-pattern line and a date-pattern match, yet extraction
fails fatally (the sender-name contract assertion rejects the
lowercase name), so the claimed two fatal conditions are not
exhaustive. -/
theorem claim5_counterexample :
    (nameTime "bob  1:30 PM\nJan 5".data).isSome = true ∧
    hasDateMatch "bob  1:30 PM\nJan 5".data = true ∧
    extract "bob  1:30 PM\nJan 5".data = .error .badName :=
  ⟨by decide, by decide, rfl⟩

/-- Claim C5, amended: extraction fails fatally exactly on blocks with
no header-pattern line, blocks whose derived sender name violates the
name contract assertions, and blocks with no date-pattern match; the
date failure carries the sender name as its diagnostic; and on success
the per-field heuristics yield their documented empty/false defaults
when their patterns do not match. -/
theorem claim5_fatal_exactly (raw : List Char) :
    (extract raw = .error .noHeader ↔ nameTime raw = none) ∧
    (extract raw = .error .badName ↔
      ∃ nm tm, nameTime raw = some (nm, tm) ∧ senderNameOf nm = none) ∧
    (∀ s, extract raw = .error (.noDate s) ↔
      ∃ nm tm, nameTime raw = some (nm, tm) ∧ senderNameOf nm = some s ∧
        hasDateMatch raw = false) ∧
    (∀ r, extract raw = .ok r →
      (salaryMatches raw = [] → (r.salary_low, r.salary_high) = ([], [])) ∧
      (occursIn sheTok (raw.map pyLower) = false →
        occursIn heTok (raw.map pyLower) = false →
        occursIn theyTok (raw.map pyLower) = false → r.sender_pronouns = []) ∧
      ((∀ l ∈ pySplitlines raw, occursIn dotTok l = false) → r.sender_title = []) ∧
      (occursIn httpsTok raw = false → occursIn wwwTok raw = false →
        r.has_url = false)) := by
  cases hnt : nameTime raw with
  | none =>
    have he : extract raw = .error .noHeader := by simp [extract, hnt]
    rw [he]
    exact ⟨by simp, by simp, fun s => by simp, fun r hr => Except.noConfusion hr⟩
  | some p =>
    obtain ⟨nm, tm⟩ := p
    cases hsn : senderNameOf nm with
    | none =>
      have he : extract raw = .error .badName := by simp [extract, hnt, hsn]
      rw [he]
      refine ⟨by simp, ?_, fun s => ?_, fun r hr => Except.noConfusion hr⟩
      · constructor
        · intro
          exact ⟨nm, tm, rfl, hsn⟩
        · intro
          rfl
      · simp [hsn]
    | some sname =>
      cases hd : hasDateMatch raw with
      | false =>
        have he : extract raw = .error (.noDate sname) := by
          simp [extract, hnt, hsn, hd]
        rw [he]
        refine ⟨by simp, by simp [hsn], fun s => ?_, fun r hr => Except.noConfusion hr⟩
        constructor
        · intro h
          have hss : sname = s := by
            have h1 := Except.error.inj h
            injection h1
          exact ⟨nm, tm, rfl, hss ▸ hsn, rfl⟩
        · rintro ⟨nm1, tm1, heq, hsn1, -⟩
          obtain ⟨rfl, rfl⟩ := Prod.mk.injEq .. ▸ Option.some.inj heq
          rw [hsn] at hsn1
          rw [Option.some.inj hsn1]
      | true =>
        have he : extract raw = .ok (mkRecord raw sname tm) := by
          simp [extract, hnt, hsn, hd]
        rw [he]
        refine ⟨by simp, by simp [hsn], fun s => by simp, fun r hr => ?_⟩
        have hrr := Except.ok.inj hr
        subst hrr
        refine ⟨fun hsm => ?_, fun h1 h2 h3 => ?_, fun hnl => ?_, fun h1 h2 => ?_⟩
        · show ((salary raw).1, (salary raw).2) = ([], [])
          rw [salary_of_no_match hsm]
        · show sender_pronouns raw = []
          simp [sender_pronouns, h1, h2, h3]
        · show sender_title raw = []
          exact senderTitleGo_none (pySplitlines raw) hnl
        · show has_url raw = false
          simp [has_url, h1, h2]

/-- Claim C5, witness: a well-formed minimal block extracts
successfully and its unmatched heuristics yield their defaults. -/
theorem claim5_witness :
    (mkRecord "Q  1:00 AM\nJan 5".data "Q".data "1:00 AM".data).sender_pronouns = [] :=
  ((claim5_fatal_exactly "Q  1:00 AM\nJan 5".data).2.2.2
      (mkRecord "Q  1:00 AM\nJan 5".data "Q".data "1:00 AM".data) rfl).2.1
    (by decide) (by decide) (by decide)

/-- Claim C6: `sender_pronouns` lower-cases the block and returns the
first of `'she/'`, `'he/'`, `'they/'` found as a substring, in that
priority order, and the empty string when none occurs. -/
theorem claim6_pronouns (raw : List Char) :
    (occursIn sheTok (raw.map pyLower) = true → sender_pronouns raw = "she".data) ∧
    (occursIn sheTok (raw.map pyLower) = false →
      occursIn heTok (raw.map pyLower) = true → sender_pronouns raw = "he".data) ∧
    (occursIn sheTok (raw.map pyLower) = false →
      occursIn heTok (raw.map pyLower) = false →
      occursIn theyTok (raw.map pyLower) = true →
      sender_pronouns raw = "they".data) ∧
    (occursIn sheTok (raw.map pyLower) = false →
      occursIn heTok (raw.map pyLower) = false →
      occursIn theyTok (raw.map pyLower) = false → sender_pronouns raw = []) := by
  refine ⟨fun h1 => ?_, fun h1 h2 => ?_, fun h1 h2 h3 => ?_, fun h1 h2 h3 => ?_⟩ <;>
    simp [sender_pronouns, *]

/-- Claim C6, witness: the tie-break block containing both `"she/her"`
and `"he/him"` returns `"she"`. -/
theorem claim6_witness :
    sender_pronouns "Alice (she/her) writes to Bob (he/him)".data = "she".data :=
  (claim6_pronouns _).1 (by decide)

/-- Claim C7: `sender_title` is the line immediately following the
first line containing the literal `'· '`, verbatim; it is empty when no
line contains the marker or when the first marker line is last. -/
theorem claim7_title (raw : List Char) :
    ((∀ l ∈ pySplitlines raw, occursIn dotTok l = false) → sender_title raw = []) ∧
    (∀ pre ml post, pySplitlines raw = pre ++ ml :: post →
      (∀ l ∈ pre, occursIn dotTok l = false) → occursIn dotTok ml = true →
      sender_title raw = post.headD []) := by
  constructor
  · intro h
    exact senderTitleGo_none (pySplitlines raw) h
  · intro pre ml post hsplit hpre hml
    unfold sender_title
    rw [hsplit]
    exact senderTitleGo_found pre ml post hpre hml

/-- Claim C7, witness: a marker line followed by a title line. -/
theorem claim7_witness :
    sender_title "Acme · 2nd\nStaff Engineer\nbody".data = "Staff Engineer".data :=
  (claim7_title _).2 [] "Acme · 2nd".data ["Staff Engineer".data, "body".data]
    (by decide) (by decide) (by decide)

/-- Claim C8: `has_url` holds exactly when `'https://'` or `'www.'`
occurs as a literal substring, checked on the spec's three examples. -/
theorem claim8_has_url :
    (∀ raw : List Char, has_url raw = true ↔ httpsTok <:+: raw ∨ wwwTok <:+: raw) ∧
    has_url "see www.example.com".data = true ∧
    has_url "go https://x".data = true ∧
    has_url "plain text only".data = false := by
  refine ⟨fun raw => ?_, by decide, by decide, by decide⟩
  simp [has_url, occursIn_iff]

/-- Claim C9: a block with `read_cv` true (it contains `'Gram'`) also
has `has_name` true and `autogenerated` false. -/
theorem claim9_read_cv (raw : List Char) (h : read_cv raw = true) :
    has_name raw = true ∧ autogenerated raw = false := by
  unfold read_cv at h
  exact ⟨by simp [has_name, h], by simp [autogenerated, h]⟩

/-- Claim C9, witness. -/
theorem claim9_witness :
    has_name "Gram, I read your CV".data = true ∧
    autogenerated "Gram, I read your CV".data = false :=
  claim9_read_cv _ (by decide)

/-- Claim C10: `salary_low` non-empty forces `salary_high` non-empty,
and `salary_low` is empty exactly when no token matched or all matched
tokens are equal to one another. -/
theorem claim10_salary_invariant (raw : List Char) :
    ((salary raw).1 ≠ [] → (salary raw).2 ≠ []) ∧
    ((salary raw).1 = [] ↔
      (salaryMatches raw = [] ∨
        ∀ x ∈ salaryMatches raw, ∀ y ∈ salaryMatches raw, x = y)) := by
  cases hm : salaryMatches raw with
  | nil =>
    rw [salary_of_no_match hm]
    exact ⟨fun h => absurd rfl h, by simp⟩
  | cons m rest =>
    cases hall : rest.all (· == m) with
    | true =>
      have hsal : salary raw = ([], m) := by
        simp [salary, hm, hall]
      rw [hsal]
      refine ⟨fun h => absurd rfl h, ⟨fun _ => ?_, fun _ => rfl⟩⟩
      right
      intro x hx y hy
      have hx' : x = m := by
        rcases List.mem_cons.mp hx with h | h
        · exact h
        · exact eq_of_beq (List.all_eq_true.mp hall x h)
      have hy' : y = m := by
        rcases List.mem_cons.mp hy with h | h
        · exact h
        · exact eq_of_beq (List.all_eq_true.mp hall y h)
      rw [hx', hy']
    | false =>
      cases rest with
      | nil => simp at hall
      | cons m2 rest2 =>
        have hsal : salary raw = (m, m2) := by
          simp [salary, hm, hall]
        rw [hsal]
        have hmm : m ∈ salaryMatches raw := by rw [hm]; simp
        have hm2m : m2 ∈ salaryMatches raw := by rw [hm]; simp
        have hmne : m ≠ [] := salaryMatches_ne_nil hmm
        have hm2ne : m2 ≠ [] := salaryMatches_ne_nil hm2m
        refine ⟨fun _ => hm2ne, ⟨fun h => absurd h hmne, fun h => ?_⟩⟩
        exfalso
        rcases h with h | h
        · exact List.noConfusion h
        · obtain ⟨x, hx, hxm⟩ := List.all_eq_false.mp hall
          have hxy := h x (List.mem_cons_of_mem m hx) m (List.mem_cons_self m (m2 :: rest2))
          exact hxm (by simp [hxy])

/-- Claim C10, witness: a block with two distinct tokens has a
non-empty `salary_high`. -/
theorem claim10_witness : (salary "we pay 80k then 120k".data).2 ≠ [] :=
  (claim10_salary_invariant _).1 (by decide)

end LinkedinStats
